import Mathlib

/-!
Verification of the pipeline core of the thesis-to-code generator.

The Python sources are shallowly embedded: pure helpers become Lean
functions on `List Char` / `String`, stateful loops become structural
recursions with explicit counters, and every interaction with an external
service (the generative model, the remote conversion service, `ast.parse`)
is a parameter of the embedded function, so that theorems quantify over
all possible behaviours of that service.
-/

/-! ### Python string helpers (str.strip, str.splitlines, substring search) -/

/-- Whitespace recognised by Python `str.strip()` (the ASCII whitespace
characters; exotic Unicode spaces do not occur in the embedded pipeline). -/
def pyIsSpace (c : Char) : Bool :=
  c = ' ' || c = '\t' || c = '\n' || c = '\r' || c = '\x0B' || c = '\x0C'

/-- Python `str.strip()` on a character list: drop whitespace from both ends. -/
def pyStrip (cs : List Char) : List Char :=
  List.rdropWhile pyIsSpace (cs.dropWhile pyIsSpace)

/-- Line-break characters recognised by Python `str.splitlines()`. -/
def pyIsLineBreak (c : Char) : Bool :=
  c = '\n' || c = '\r' || c = '\x0B' || c = '\x0C' ||
  c = '\x1C' || c = '\x1D' || c = '\x1E' || c = '\x85' ||
  c = '\u2028' || c = '\u2029'

/-- Worker for `pySplitlines`: `acc` is the current line, reversed. -/
def pySplitlinesGo : List Char → List Char → List (List Char)
  | [], acc => [acc.reverse]
  | '\x0D' :: '\x0A' :: rest, acc =>
      acc.reverse :: (if rest.isEmpty then [] else pySplitlinesGo rest [])
  | c :: rest, acc =>
      if pyIsLineBreak c then
        acc.reverse :: (if rest.isEmpty then [] else pySplitlinesGo rest [])
      else
        pySplitlinesGo rest (c :: acc)
  termination_by cs _ => cs.length

/-- Python `str.splitlines()` (without keepends): splits on every line-break
character, treats a `CR LF` pair as one break, and drops a trailing empty
line. The empty string yields no lines. -/
def pySplitlines (cs : List Char) : List (List Char) :=
  if cs.isEmpty then [] else pySplitlinesGo cs []

/-- Python `"\n".join(lines)` on character lists. -/
def joinNewline : List (List Char) → List Char
  | [] => []
  | [l] => l
  | l :: ls => l ++ '\n' :: joinNewline ls

/-- Index of the first occurrence of `c`, as `Option` (Python `str.find`
returns `-1` for the `none` case). -/
def firstIdxOf (c : Char) : List Char → Option Nat
  | [] => none
  | d :: rest => if d = c then some 0 else (firstIdxOf c rest).map (· + 1)

/-- Index of the last occurrence of `c` (Python `str.rfind`). -/
def lastIdxOf (c : Char) (cs : List Char) : Option Nat :=
  (firstIdxOf c cs.reverse).map (fun i => cs.length - 1 - i)

/-- Split at the first occurrence of `pat`: returns the part before the
occurrence and the part after it. `none` when `pat` does not occur. -/
def splitFirst (pat : List Char) : List Char → Option (List Char × List Char)
  | [] => none
  | c :: cs =>
      if pat.isPrefixOf (c :: cs) then some ([], (c :: cs).drop pat.length)
      else (splitFirst pat cs).map (fun pr => (c :: pr.1, pr.2))

/-- The three-backtick fence marker used by `strip_code_fences`. -/
def fenceMarker : List Char := "```".data

/-! ### Embedding of app/utils/json_utils.py -/

/-- `strip_code_fences` from `app/utils/json_utils.py`: strip whitespace;
if the text starts with a fence, drop its first line (or everything, for a
one-line text); if it then ends with a fence, drop the final three fence
characters (this is what `rsplit` with the fence and limit 1 does on a text
that ends with the fence); strip whitespace again. -/
def strip_code_fences (text : String) : String :=
  let cleaned := pyStrip text.data
  let cleaned :=
    if fenceMarker.isPrefixOf cleaned then
      let lines := pySplitlines cleaned
      if 1 < lines.length then joinNewline (lines.drop 1) else []
    else cleaned
  let cleaned :=
    if fenceMarker.isSuffixOf cleaned then cleaned.rdrop 3 else cleaned
  String.mk (pyStrip cleaned)

/-- `extract_json_blob` from `app/utils/json_utils.py`: slice the
fence-stripped text from the first `[` or first brace to just past the last
`]` or last closing brace, then strip whitespace. -/
def extract_json_blob (text : String) : String :=
  let cleaned := (strip_code_fences text).data
  let start :=
    match firstIdxOf '{' cleaned, firstIdxOf '[' cleaned with
    | some i, some j => min i j
    | some i, none => i
    | none, some j => j
    | none, none => 0
  let trimmed := cleaned.drop start
  let stop :=
    match lastIdxOf '}' trimmed, lastIdxOf ']' trimmed with
    | some i, some j => max i j + 1
    | some i, none => i + 1
    | none, some j => j + 1
    | none, none => trimmed.length
  String.mk (pyStrip (trimmed.take stop))

/-! ### A model of Python json.loads

Modelled from the documented behaviour of the Python standard library
`json` module (the repository calls `json.loads` on the extracted blob):
RFC 8259 grammar plus the `NaN` / `Infinity` / `-Infinity` constants that
the module accepts by default; strict rejection of unescaped control
characters in strings; numbers keep their source lexeme. -/

/-- JSON values as produced by `json.loads`. Object fields keep their
source order (duplicate keys: a lookup takes the last one, as a Python
dict built from the pairs would). -/
inductive Json where
  | null
  | bool (b : Bool)
  | num (lexeme : String)
  | str (s : String)
  | arr (items : List Json)
  | obj (fields : List (String × Json))

/-- JSON whitespace (the only characters `json.loads` skips between tokens). -/
def jsonWs (c : Char) : Bool :=
  c = ' ' || c = '\t' || c = '\n' || c = '\r'

/-- Skip JSON whitespace. -/
def skipWs (cs : List Char) : List Char := cs.dropWhile jsonWs

/-- Longest digit run and the remainder. -/
def digitSpan (cs : List Char) : List Char × List Char :=
  (cs.takeWhile Char.isDigit, cs.dropWhile Char.isDigit)

/-- Integer part of the JSON number grammar: `0` or a nonzero digit
followed by digits. -/
def parseIntDigits : List Char → Option (List Char × List Char)
  | '0' :: rest => some (['0'], rest)
  | c :: rest =>
      if c.isDigit then
        let sp := digitSpan rest
        some (c :: sp.1, sp.2)
      else none
  | [] => none

/-- Integer part with an optional leading minus sign. -/
def parseIntLex : List Char → Option (List Char × List Char)
  | '-' :: rest => (parseIntDigits rest).map (fun pr => ('-' :: pr.1, pr.2))
  | cs => parseIntDigits cs

/-- Optional fraction part `.digits`; yields `[]` and the unchanged input
when absent. -/
def parseFrac (cs : List Char) : List Char × List Char :=
  match cs with
  | '.' :: rest =>
      match digitSpan rest with
      | ([], _) => ([], cs)
      | (ds, r) => ('.' :: ds, r)
  | _ => ([], cs)

/-- Optional exponent part; yields `[]` and the unchanged input when absent. -/
def parseExp (cs : List Char) : List Char × List Char :=
  match cs with
  | c :: rest =>
      if c = 'e' || c = 'E' then
        let signRest : List Char × List Char :=
          match rest with
          | s :: r2 => if s = '+' || s = '-' then ([s], r2) else ([], rest)
          | [] => ([], rest)
        match digitSpan signRest.2 with
        | ([], _) => ([], cs)
        | (ds, r) => (c :: (signRest.1 ++ ds), r)
      else ([], cs)
  | [] => ([], [])

/-- A JSON number at the head of the input; returns its lexeme. -/
def parseNumber (cs : List Char) : Option (String × List Char) :=
  match parseIntLex cs with
  | none => none
  | some (ipart, rest) =>
      let fr := parseFrac rest
      let ex := parseExp fr.2
      some (String.mk (ipart ++ fr.1 ++ ex.1), ex.2)

/-- Value of a hexadecimal digit. -/
def hexVal (c : Char) : Option Nat :=
  if c.isDigit then some (c.toNat - 48)
  else if 'a' ≤ c ∧ c ≤ 'f' then some (c.toNat - 87)
  else if 'A' ≤ c ∧ c ≤ 'F' then some (c.toNat - 55)
  else none

/-- Body of a JSON string, after the opening quote; returns the decoded
characters and the remainder after the closing quote. Unescaped control
characters are rejected (the strict default of `json.loads`). -/
def parseStrBody : Nat → List Char → Option (List Char × List Char)
  | 0, _ => none
  | _ + 1, [] => none
  | fuel + 1, c :: rest =>
      if c = '"' then some ([], rest)
      else if c = '\\' then
        match rest with
        | [] => none
        | e :: rest2 =>
            if e = '"' || e = '\\' || e = '/' then
              (parseStrBody fuel rest2).map (fun pr => (e :: pr.1, pr.2))
            else if e = 'b' then
              (parseStrBody fuel rest2).map (fun pr => ('\x08' :: pr.1, pr.2))
            else if e = 'f' then
              (parseStrBody fuel rest2).map (fun pr => ('\x0C' :: pr.1, pr.2))
            else if e = 'n' then
              (parseStrBody fuel rest2).map (fun pr => ('\n' :: pr.1, pr.2))
            else if e = 'r' then
              (parseStrBody fuel rest2).map (fun pr => ('\r' :: pr.1, pr.2))
            else if e = 't' then
              (parseStrBody fuel rest2).map (fun pr => ('\t' :: pr.1, pr.2))
            else if e = 'u' then
              match rest2 with
              | h1 :: h2 :: h3 :: h4 :: rest3 =>
                  match hexVal h1, hexVal h2, hexVal h3, hexVal h4 with
                  | some a, some b, some c2, some d =>
                      (parseStrBody fuel rest3).map
                        (fun pr => (Char.ofNat (a * 4096 + b * 256 + c2 * 16 + d) :: pr.1, pr.2))
                  | _, _, _, _ => none
              | _ => none
            else none
      else if c.toNat < 32 then none
      else (parseStrBody fuel rest).map (fun pr => (c :: pr.1, pr.2))

/-- Intermediate results of the JSON scanner. -/
inductive JPiece where
  | val (v : Json)
  | fields (fs : List (String × Json))
  | items (xs : List Json)

/-- Scanner modes: a value; an object body right after the opening brace
and whitespace; the field list of a non-empty object; an array body; the
item list of a non-empty array. -/
inductive JMode where
  | value
  | objStart
  | objFields
  | arrStart
  | arrItems

/-- The JSON scanner, one structural recursion on fuel over all modes (so
that the kernel can evaluate it); every recursive call spends one fuel
unit, and `json_loads` supplies enough fuel for any input. -/
def parseJsonAux : Nat → JMode → List Char → Option (JPiece × List Char)
  | 0, _, _ => none
  | fuel + 1, .value, cs =>
      match cs with
      | [] => none
      | '{' :: rest =>
          match parseJsonAux fuel .objStart (skipWs rest) with
          | some (.fields fs, r) => some (.val (.obj fs), r)
          | _ => none
      | '[' :: rest =>
          match parseJsonAux fuel .arrStart (skipWs rest) with
          | some (.items xs, r) => some (.val (.arr xs), r)
          | _ => none
      | '"' :: rest =>
          (parseStrBody (rest.length + 1) rest).map
            (fun pr => (.val (.str (String.mk pr.1)), pr.2))
      | 't' :: 'r' :: 'u' :: 'e' :: rest => some (.val (.bool true), rest)
      | 'f' :: 'a' :: 'l' :: 's' :: 'e' :: rest => some (.val (.bool false), rest)
      | 'n' :: 'u' :: 'l' :: 'l' :: rest => some (.val .null, rest)
      | 'N' :: 'a' :: 'N' :: rest => some (.val (.num "NaN"), rest)
      | 'I' :: 'n' :: 'f' :: 'i' :: 'n' :: 'i' :: 't' :: 'y' :: rest =>
          some (.val (.num "Infinity"), rest)
      | '-' :: 'I' :: 'n' :: 'f' :: 'i' :: 'n' :: 'i' :: 't' :: 'y' :: rest =>
          some (.val (.num "-Infinity"), rest)
      | other => (parseNumber other).map (fun pr => (.val (.num pr.1), pr.2))
  | fuel + 1, .objStart, cs =>
      match cs with
      | '}' :: rest => some (.fields [], rest)
      | _ => parseJsonAux fuel .objFields cs
  | fuel + 1, .objFields, cs =>
      match cs with
      | '"' :: rest =>
          match parseStrBody (rest.length + 1) rest with
          | none => none
          | some (k, r1) =>
              match skipWs r1 with
              | ':' :: r3 =>
                  match parseJsonAux fuel .value (skipWs r3) with
                  | some (.val v, r4) =>
                      match skipWs r4 with
                      | ',' :: r6 =>
                          match parseJsonAux fuel .objFields (skipWs r6) with
                          | some (.fields fs, r) =>
                              some (.fields ((String.mk k, v) :: fs), r)
                          | _ => none
                      | '}' :: r6 => some (.fields [(String.mk k, v)], r6)
                      | _ => none
                  | _ => none
              | _ => none
      | _ => none
  | fuel + 1, .arrStart, cs =>
      match cs with
      | ']' :: rest => some (.items [], rest)
      | _ => parseJsonAux fuel .arrItems cs
  | fuel + 1, .arrItems, cs =>
      match parseJsonAux fuel .value cs with
      | some (.val v, r1) =>
          match skipWs r1 with
          | ',' :: r2 =>
              match parseJsonAux fuel .arrItems (skipWs r2) with
              | some (.items xs, r) => some (.items (v :: xs), r)
              | _ => none
          | ']' :: r2 => some (.items [v], r2)
          | _ => none
      | _ => none

/-- A JSON value at the head of the (whitespace-skipped) input. -/
def parseJsonValue (fuel : Nat) (cs : List Char) : Option (Json × List Char) :=
  match parseJsonAux fuel .value cs with
  | some (.val v, r) => some (v, r)
  | _ => none

/-- Model of Python `json.loads`: parse one JSON document, allowing only
whitespace around it; `none` models a raised `JSONDecodeError`. -/
def json_loads (s : String) : Option Json :=
  let cs := skipWs s.data
  match parseJsonValue (3 * cs.length + 8) cs with
  | some (v, rest) => if (skipWs rest).isEmpty then some v else none
  | none => none

/-- `load_json_from_response` from `app/utils/json_utils.py`: extract the
blob and parse it; `none` models the re-raised `JSONDecodeError`. -/
def load_json_from_response (response : String) : Option Json :=
  json_loads (extract_json_blob response)

/-- The property named by claim C2: the input text contains none of the
four bracket characters. -/
def bracketFree (s : String) : Prop :=
  ∀ c ∈ s.data, c ≠ '{' ∧ c ≠ '[' ∧ c ≠ '}' ∧ c ≠ ']'

instance (s : String) : Decidable (bracketFree s) := by
  unfold bracketFree
  infer_instance

/-! ### Data model (app/schemas/models.py) -/

/-- `ThesisType` enumeration. -/
inductive ThesisType
  | empirical
  | simulation
  | algorithm
  | system_design
  | data_analysis
  | machine_learning
  | other
deriving DecidableEq

/-- `CodeTaskType` enumeration. -/
inductive CodeTaskType
  | data_preprocessing
  | data_analysis
  | model_training
  | visualization
  | algorithm_impl
  | statistical_test
  | simulation
  | utility
deriving DecidableEq

/-- `CodeTask` model (the fields the embedded pipeline reads). -/
structure CodeTask where
  task_id : String
  task_type : CodeTaskType
  title : String
  description : String
  requirements : List String := []
  dependencies : List String := []
  input_data : Option String := none
  expected_output : Option String := none
  priority : Int := 0

/-- `GeneratedCode` model. -/
structure GeneratedCode where
  task_id : String
  file_name : String
  code : String
  description : String
  dependencies : List String := []

/-- `ValidationResult` model, defaults as in the source. -/
structure ValidationResult where
  task_id : String
  is_valid : Bool
  syntax_check : Bool := true
  import_check : Bool := true
  execution_check : Bool := false
  error_message : Option String := none
  suggestions : List String := []
  fixed_code : Option String := none

/-- `ParsedContent` model, defaults as in the source. Loosely typed fields
keep their JSON form. -/
structure ParsedContent where
  title : String := ""
  abstract : String := ""
  keywords : List String := []
  chapters : List (String × String) := []
  tables : List Json := []
  figures : List String := []
  references : List String := []
  raw_markdown : String := ""
  embedded_data : Option Json := none

/-! ### JSON field access helpers (Python dict.get and pydantic coercions) -/

/-- Python `dict.get(k, d)` on a JSON object built by `json.loads`: for a
duplicated key the dict kept the last value. -/
def jGetD (fields : List (String × Json)) (k : String) (d : Json) : Json :=
  match fields.reverse.find? (fun f => f.1 = k) with
  | some f => f.2
  | none => d

/-- A JSON value accepted for a `str` field. -/
def asStr : Json → Option String
  | .str s => some s
  | _ => none

/-- A JSON value accepted for a `List[str]` field. -/
def asStrList : Json → Option (List String)
  | .arr items => items.mapM asStr
  | _ => none

/-- A JSON value accepted for an `Optional[str]` field. -/
def asOptStr : Json → Option (Option String)
  | .null => some none
  | .str s => some (some s)
  | _ => none

/-- Digits to a natural number. -/
def natOfDigits (ds : List Char) : Nat :=
  ds.foldl (fun n c => n * 10 + (c.toNat - 48)) 0

/-- An integer JSON number lexeme to `Int` (the model accepts exactly the
integer literals for an `int` field; a Python `bool` also passes, being an
`int` subclass). -/
def intOfLexeme (lex : String) : Option Int :=
  match lex.data with
  | '-' :: ds =>
      if ds ≠ [] ∧ ds.all Char.isDigit then some (-(natOfDigits ds : Int)) else none
  | ds =>
      if ds ≠ [] ∧ ds.all Char.isDigit then some ((natOfDigits ds : Int)) else none

/-- A JSON value accepted for an `int` field. -/
def asInt : Json → Option Int
  | .num lex => intOfLexeme lex
  | .bool b => some (if b then 1 else 0)
  | _ => none

/-! ### Embedding of app/agents/analyzer_agent.py

Each analysis step performs one model call whose reply is parsed with
`load_json_from_response`; the whole step body sits in a `try` block. The
step is therefore a function of `resp : Option Json`: `some data` is a
parsed reply, `none` is any exception raised by the call or the parse.
An exception raised later inside the `try` block (for instance `.get` on a
non-dict reply) also lands in the `except` branch. -/

/-- The `type_mapping` dict of `_analyze_thesis_type`. -/
def thesis_type_mapping (s : String) : Option ThesisType :=
  if s = "empirical" then some .empirical
  else if s = "simulation" then some .simulation
  else if s = "algorithm" then some .algorithm
  else if s = "system_design" then some .system_design
  else if s = "data_analysis" then some .data_analysis
  else if s = "machine_learning" then some .machine_learning
  else none

/-- `AnalyzerAgent._analyze_thesis_type`, as the triple of components its
caller reads from the returned dict: the mapped thesis type and the
`method` and `summary` entries. An unhashable `type` value (a JSON array
or object) makes the mapping lookup raise, landing in the failure branch. -/
def analyze_thesis_type (resp : Option Json) : ThesisType × Json × Json :=
  match resp with
  | some (.obj fields) =>
      match jGetD fields "type" (.str "") with
      | .str s =>
          ((thesis_type_mapping s).getD .other,
           jGetD fields "method" (.str ""), jGetD fields "summary" (.str ""))
      | .arr _ => (.other, .str "", .str "")
      | .obj _ => (.other, .str "", .str "")
      | _ =>
          (.other, jGetD fields "method" (.str ""), jGetD fields "summary" (.str ""))
  | some _ => (.other, .str "", .str "")
  | none => (.other, .str "", .str "")

/-- The `type_mapping` dict of `_parse_task_type` (default `UTILITY`). -/
def parse_task_type (typeStr : String) : CodeTaskType :=
  let s := typeStr.toLower
  if s = "data_preprocessing" then .data_preprocessing
  else if s = "data_analysis" then .data_analysis
  else if s = "model_training" then .model_training
  else if s = "visualization" then .visualization
  else if s = "algorithm_impl" then .algorithm_impl
  else if s = "statistical_test" then .statistical_test
  else if s = "simulation" then .simulation
  else .utility

/-- One element of the `tasks` array to a `CodeTask` (index `i`, generated
id `tid`); `none` models an exception raised while reading the dict or a
pydantic validation error, which aborts the whole task list. -/
def convert_task_item (i : Nat) (tid : String) (item : Json) : Option CodeTask :=
  match item with
  | .obj fields => do
      let typeStr ← asStr (jGetD fields "task_type" (.str ""))
      let title ← asStr (jGetD fields "title" (.str ("任务" ++ toString (i + 1))))
      let description ← asStr (jGetD fields "description" (.str ""))
      let requirements ← asStrList (jGetD fields "requirements" (.arr []))
      let input_data ← asOptStr (jGetD fields "input_data" .null)
      let expected_output ← asOptStr (jGetD fields "expected_output" .null)
      let priority ← asInt (jGetD fields "priority" (.num (toString i)))
      some { task_id := tid, task_type := parse_task_type typeStr, title := title,
             description := description, requirements := requirements,
             dependencies := [], input_data := input_data,
             expected_output := expected_output, priority := priority }
  | _ => none

/-- Convert the `tasks` array elements in order, starting at index `i`. -/
def convert_task_items (taskIds : Nat → String) : Nat → List Json → Option (List CodeTask)
  | _, [] => some []
  | i, item :: rest => do
      let t ← convert_task_item i (taskIds i) item
      let ts ← convert_task_items taskIds (i + 1) rest
      some (t :: ts)

/-- `AnalyzerAgent._generate_code_tasks`: `taskIds` abstracts the
uuid-based task id generator; any exception while converting yields the
empty task list. -/
def generate_code_tasks (resp : Option Json) (taskIds : Nat → String) : List CodeTask :=
  match resp with
  | some (.obj fields) =>
      match jGetD fields "tasks" (.arr []) with
      | .arr items => (convert_task_items taskIds 0 items).getD []
      | _ => []
  | some _ => []
  | none => []

/-- The pair returned by `_determine_tech_stack` when the model call, the
JSON parse, or the dict access fails: the hard-coded default tech stack
and default library list. -/
def tech_stack_failure_default : Json × Json :=
  (.arr [.str "Python", .str "Pandas", .str "NumPy"],
   .arr [.str "pandas", .str "numpy", .str "matplotlib", .str "scikit-learn"])

/-- `AnalyzerAgent._determine_tech_stack`: on success, the raw
`tech_stack` and `libraries` entries of the reply dict. -/
def determine_tech_stack (resp : Option Json) : Json × Json :=
  match resp with
  | some (.obj fields) =>
      (jGetD fields "tech_stack" (.arr []), jGetD fields "libraries" (.arr []))
  | some _ => tech_stack_failure_default
  | none => tech_stack_failure_default

/-! ### Embedding of app/agents/validator_agent.py

`ast.parse` and the AST-based advisory checks are abstracted by `PyChecks`:
`astParse` yields `none` for code that parses and the raised `SyntaxError`
otherwise; `staticIssues` yields the advisory issue list that
`_static_analysis` computes for parseable code. The generative model used
by `_fix_code` is the oracle `llm : Nat → Option String` giving the reply
of the n-th `simple_chat` call (`none` = raised exception). -/

/-- The fields of a raised `SyntaxError` that the validator reads. -/
structure SynError where
  lineno : Int
  msg : String
  toStr : String

/-- Abstracted Python checkers backing the validator. -/
structure PyChecks where
  astParse : String → Option SynError
  staticIssues : String → List String

/-- The error string `_check_syntax` builds from a `SyntaxError`. -/
def format_syn_error (e : SynError) : String :=
  "第" ++ toString e.lineno ++ "行: " ++ e.msg

/-- `ValidatorAgent._check_syntax`: `none` when the code parses. -/
def check_syn (env : PyChecks) (code : String) : Option String :=
  (env.astParse code).map format_syn_error

/-- `ValidatorAgent._check_imports`: parses the code again and, with a
successful parse, always reports ok (the import lists are collected but
not acted upon); a parse failure reports `str(e)`. -/
def check_imports (env : PyChecks) (code : String) : Bool × Option String :=
  match env.astParse code with
  | none => (true, none)
  | some e => (false, some e.toStr)

/-- `ValidatorAgent._static_analysis`: advisory issues for parseable code,
`str(e)` as sole issue otherwise. -/
def static_analysis (env : PyChecks) (code : String) : Bool × List String :=
  match env.astParse code with
  | some e => (false, [e.toStr])
  | none =>
      let issues := env.staticIssues code
      (issues.isEmpty, issues)

/-- The first fenced python block of a reply, as matched by the regex of
`_fix_code` (and of the coder text fallbacks): the text between the first
fence-plus-language marker and the next closing fence. -/
def extract_python_block (text : String) : Option String :=
  match splitFirst ("```python\n".data) text.data with
  | none => none
  | some (_, afterOpen) =>
      match splitFirst fenceMarker afterOpen with
      | none => none
      | some (content, _) => some (String.mk content)

/-- `ValidatorAgent._fix_code`: extract a python block from the model
reply and return it only if it reparses; `none` otherwise. -/
def fix_code (env : PyChecks) (llmResp : Option String) : Option String :=
  match llmResp with
  | none => none
  | some response =>
      match extract_python_block response with
      | none => none
      | some fixed => if (env.astParse fixed).isNone then some fixed else none

/-- The terminal result of `_validate_single_code` when the retry budget
is exhausted. -/
def retry_exhausted_result (orig : GeneratedCode) (maxRetries : Nat) : ValidationResult :=
  { task_id := orig.task_id, is_valid := false,
    error_message := some ("超过最大重试次数(" ++ toString maxRetries ++ ")"),
    suggestions := ["代码存在问题，请手动检查"] }

/-- A validation outcome together with the loop bookkeeping: how many fix
attempts `_fix_code` made and how many of them succeeded (each success is
one `retry_count` increment). -/
structure ValidationTrace where
  result : ValidationResult
  fixAttempts : Nat
  fixSuccesses : Nat

/-- The `while retry_count < self.max_retries` loop of
`_validate_single_code`; `remaining` is `max_retries - retry_count` and
`fixIdx` numbers the `_fix_code` calls for the `llm` oracle. -/
def validate_aux (env : PyChecks) (llm : Nat → Option String) (orig : GeneratedCode)
    (maxRetries : Nat) : Nat → String → Nat → ValidationTrace
  | 0, _, _ => ⟨retry_exhausted_result orig maxRetries, 0, 0⟩
  | remaining + 1, current, fixIdx =>
      match check_syn env current with
      | some synErrMsg =>
          match fix_code env (llm fixIdx) with
          | some fixed =>
              let t := validate_aux env llm orig maxRetries remaining fixed (fixIdx + 1)
              ⟨t.result, t.fixAttempts + 1, t.fixSuccesses + 1⟩
          | none =>
              ⟨{ task_id := orig.task_id, is_valid := false, syntax_check := false,
                 error_message := some synErrMsg, suggestions := ["请检查代码语法"] }, 1, 0⟩
      | none =>
          match check_imports env current with
          | (true, _) =>
              let res := static_analysis env current
              ⟨{ task_id := orig.task_id, is_valid := true, syntax_check := true,
                 import_check := true, execution_check := false,
                 suggestions := if res.1 then [] else res.2,
                 fixed_code := if current = orig.code then none else some current }, 0, 0⟩
          | (false, impErr) =>
              match fix_code env (llm fixIdx) with
              | some fixed =>
                  let t := validate_aux env llm orig maxRetries remaining fixed (fixIdx + 1)
                  ⟨t.result, t.fixAttempts + 1, t.fixSuccesses + 1⟩
              | none =>
                  ⟨{ task_id := orig.task_id, is_valid := false, syntax_check := true,
                     import_check := false, error_message := impErr,
                     suggestions := ["请检查导入语句"] }, 1, 0⟩

/-- `ValidatorAgent._validate_single_code` with its loop bookkeeping. -/
def validate_single_code (env : PyChecks) (llm : Nat → Option String)
    (code : GeneratedCode) (maxRetries : Nat) : ValidationTrace :=
  validate_aux env llm code maxRetries maxRetries code.code 0

/-! ### Embedding of app/core/llm.py -/

/-- What `LLM.chat` ends with: a response, a re-raised last error, or the
implicit `None` return of an empty `range(max_retries)` loop. -/
inductive ChatOutcome (ε ρ : Type) where
  | success (response : ρ)
  | raised (err : ε)
  | skipped

/-- A chat outcome with its trace: number of attempts made and the list of
backoff sleeps performed between consecutive attempts, in order. -/
structure ChatTrace (ε ρ : Type) where
  outcome : ChatOutcome ε ρ
  attempts : Nat
  sleeps : List Nat

/-- The `for attempt in range(max_retries)` loop of `LLM.chat`; `call` is
the completion-request oracle for each attempt index, `remaining` counts
the loop iterations left. -/
def chat_aux {ε ρ : Type} (call : Nat → Except ε ρ) (maxRetries : Nat) :
    Nat → Nat → ChatTrace ε ρ
  | 0, _ => ⟨.skipped, 0, []⟩
  | remaining + 1, attempt =>
      match call attempt with
      | .ok response => ⟨.success response, 1, []⟩
      | .error e =>
          if attempt < maxRetries - 1 then
            let t := chat_aux call maxRetries remaining (attempt + 1)
            ⟨t.outcome, t.attempts + 1, 2 ^ attempt :: t.sleeps⟩
          else
            ⟨.raised e, 1, []⟩

/-- `LLM.chat` with its retry trace. -/
def chat {ε ρ : Type} (call : Nat → Except ε ρ) (maxRetries : Nat) : ChatTrace ε ρ :=
  chat_aux call maxRetries maxRetries 0

/-! ### Embedding of app/agents/parser_agent.py -/

/-- Python truthiness of an `Optional[str]`: `None` and the empty string
are falsy. -/
def truthyOptStr : Option String → Bool
  | none => false
  | some s => !s.isEmpty

/-- The abstracted environment of one `ParserAgent.run` call: the locator
kind and existence test, the outcome of each fallback tier (`none` = the
tier failed and returned `None`), and the parsed reply of the structure
extraction call (as for the analyzer steps). -/
structure MineruOracles where
  isUrl : Bool
  fileExists : Bool
  submitUrlTask : Option String
  uploadAndParse : Option String
  localPdfParse : Option String
  structResp : Option Json

/-- `ParserAgent._convert_pdf_to_markdown`: the three-tier fallback chain. -/
def convert_pdf_to_markdown (o : MineruOracles) : Option String :=
  if o.isUrl then
    o.submitUrlTask
  else if o.fileExists = false then
    none
  else if truthyOptStr o.uploadAndParse then
    o.uploadAndParse
  else
    o.localPdfParse

/-- A parsed JSON reply to a `ParsedContent`, with the pydantic field
validation; `none` models a raised validation error. -/
def parsed_content_of_json (data : Json) (markdown : String) : Option ParsedContent :=
  match data with
  | .obj fields => do
      let title ← asStr (jGetD fields "title" (.str ""))
      let abstract ← asStr (jGetD fields "abstract" (.str ""))
      let keywords ← asStrList (jGetD fields "keywords" (.arr []))
      let chapters ←
        match jGetD fields "chapters" (.obj []) with
        | .obj chFields => chFields.mapM (fun f => (asStr f.2).map (fun v => (f.1, v)))
        | _ => none
      let tables ←
        match jGetD fields "tables" (.arr []) with
        | .arr items =>
            if items.all (fun it => match it with | .obj _ => true | _ => false)
            then some items else none
        | _ => none
      some { title := title, abstract := abstract, keywords := keywords,
             chapters := chapters, tables := tables, raw_markdown := markdown }
  | _ => none

/-- `ParserAgent._parse_markdown_structure`: any exception in the `try`
block falls back to a `ParsedContent` carrying only the markdown. -/
def parse_markdown_structure (resp : Option Json) (markdown : String) : ParsedContent :=
  match resp with
  | some data =>
      match parsed_content_of_json data markdown with
      | some pc => pc
      | none => { raw_markdown := markdown }
  | none => { raw_markdown := markdown }

/-- `ParserAgent.run`: convert, and on a falsy conversion result return
the empty document. -/
def parser_run (o : MineruOracles) : ParsedContent :=
  let md := convert_pdf_to_markdown o
  if truthyOptStr md = false then { raw_markdown := "" }
  else parse_markdown_structure o.structResp (md.getD "")

/-! ### Embedding of app/agents/coder_agent.py -/

/-- The sort key relation of `sorted(analysis_result.code_tasks,
key=lambda x: x.priority)`. -/
def taskPriorityLe (a b : CodeTask) : Prop :=
  a.priority ≤ b.priority

instance : DecidableRel taskPriorityLe :=
  fun a b => inferInstanceAs (Decidable (a.priority ≤ b.priority))

instance : IsTotal CodeTask taskPriorityLe :=
  ⟨fun a b => Int.le_total a.priority b.priority⟩

instance : IsTrans CodeTask taskPriorityLe :=
  ⟨fun _ _ _ hab hbc => le_trans hab hbc⟩

/-- The stable priority sort of `CoderAgent.run` (Python sorted is a
stable sort; it is modelled by insertion sort, whose stability is proved
below). -/
def sort_tasks_by_priority (tasks : List CodeTask) : List CodeTask :=
  List.insertionSort taskPriorityLe tasks

/-- The per-task artifacts collected by the loop of `CoderAgent.run`:
`gen` abstracts `_generate_code_for_task` (one independent model call per
task; `none` = no tool call and no extractable code, the task is dropped). -/
def coder_artifacts (gen : CodeTask → Option GeneratedCode)
    (tasks : List CodeTask) : List GeneratedCode :=
  (sort_tasks_by_priority tasks).filterMap gen

/-- `CoderAgent.run`: synthesize the tasks in stable priority order, then
append the main-program artifact; `genMain` abstracts
`_generate_main_program`, which returns `None` up front for an empty
artifact list and may fail (`none`) otherwise. -/
def coder_run (gen : CodeTask → Option GeneratedCode)
    (genMain : List GeneratedCode → Option GeneratedCode)
    (tasks : List CodeTask) : List GeneratedCode :=
  let arts := coder_artifacts gen tasks
  match (if arts.isEmpty then none else genMain arts) with
  | some m => arts ++ [m]
  | none => arts

/-! ### Embedding of app/core/workflow.py -/

/-- The `result_map` dict of `_apply_fixes` (a comprehension keyed by
`task_id`, so a duplicated id keeps the last result), as a lookup. -/
def result_map (results : List ValidationResult) (tid : String) : Option ValidationResult :=
  results.reverse.find? (fun r => r.task_id = tid)

/-- `ThesisToCodeWorkflow._apply_fixes`: replace the source text of an
artifact by the matching truthy `fixed_code`, keep everything else. -/
def apply_fixes (codes : List GeneratedCode) (results : List ValidationResult) :
    List GeneratedCode :=
  codes.map (fun code =>
    match result_map results code.task_id with
    | some r =>
        if truthyOptStr r.fixed_code then
          { task_id := code.task_id, file_name := code.file_name,
            code := r.fixed_code.getD "", description := code.description,
            dependencies := code.dependencies }
        else code
    | none => code)

instance : IsTotal String (fun a b => a ≤ b) :=
  ⟨fun a b => le_total a b⟩

instance : IsTrans String (fun a b => a ≤ b) :=
  ⟨fun _ _ _ hab hbc => le_trans hab hbc⟩

instance : DecidableRel (fun a b : String => a ≤ b) :=
  fun a b => inferInstanceAs (Decidable (a ≤ b))

/-- The dependency aggregation of `_generate_project_output`: a Python set
accumulates every artifact dependency and the analyzer libraries, and
`sorted` lists the set ascending; the set-then-sort is modelled by
deduplication followed by a sort. -/
def project_requirements (codes : List GeneratedCode) (libraries : List String) :
    List String :=
  List.insertionSort (fun a b => a ≤ b)
    (((codes.map (fun c => c.dependencies)).flatten ++ libraries).dedup)

/-! ### Concrete fixtures used by witness theorems -/

/-- A checker environment in which exactly the text `ok` parses. -/
def envW : PyChecks :=
  { astParse := fun s =>
      if s = "ok" then none else some ⟨1, "invalid syntax", "invalid syntax at line 1"⟩,
    staticIssues := fun _ => [] }

/-- A model oracle whose every reply is a fenced block containing `ok`. -/
def llmW : Nat → Option String := fun _ => some "```python\nok```"

/-- An artifact whose source text does not parse under `envW`. -/
def codeW : GeneratedCode :=
  { task_id := "t1", file_name := "a.py", code := "x = (", description := "demo" }

/-- A completion oracle failing on attempt 0 and succeeding on attempt 1. -/
def callW : Nat → Except String String :=
  fun i => if i = 0 then .error "boom" else .ok "done"

/-- Ingestion oracles in which every fallback tier fails. -/
def mineruW : MineruOracles :=
  { isUrl := false, fileExists := true, submitUrlTask := none,
    uploadAndParse := some "", localPdfParse := none, structResp := none }

/-- A one-artifact list for the fix-application witness. -/
def codesW : List GeneratedCode :=
  [{ task_id := "t1", file_name := "a.py", code := "old", description := "demo",
     dependencies := ["numpy"] }]

/-- A matching validation result carrying a replacement text. -/
def resultsW : List ValidationResult :=
  [{ task_id := "t1", is_valid := true, fixed_code := some "new" }]

/-! ### Helper lemmas on the string utilities -/

/-- `pyStrip` only removes characters at the two ends. -/
theorem pyStrip_mid (cs : List Char) : pyStrip cs <:+: cs := by
  obtain ⟨t, ht⟩ := List.rdropWhile_prefix pyIsSpace (cs.dropWhile pyIsSpace)
  refine ⟨cs.takeWhile pyIsSpace, t, ?_⟩
  show cs.takeWhile pyIsSpace ++
      List.rdropWhile pyIsSpace (cs.dropWhile pyIsSpace) ++ t = cs
  rw [List.append_assoc, ht, List.takeWhile_append_dropWhile]

/-- A trimmed-then-stripped slice is a contiguous segment. -/
theorem pyStrip_take_drop_mid (cleaned : List Char) (start stop : Nat) :
    pyStrip ((cleaned.drop start).take stop) <:+: cleaned := by
  obtain ⟨s1, t1, h1⟩ := pyStrip_mid ((cleaned.drop start).take stop)
  refine ⟨cleaned.take start ++ s1, t1 ++ (cleaned.drop start).drop stop, ?_⟩
  calc cleaned.take start ++ s1 ++ pyStrip ((cleaned.drop start).take stop) ++
        (t1 ++ (cleaned.drop start).drop stop)
      = cleaned.take start ++
          ((s1 ++ pyStrip ((cleaned.drop start).take stop) ++ t1) ++
            (cleaned.drop start).drop stop) := by
        simp [List.append_assoc]
    _ = cleaned.take start ++
          ((cleaned.drop start).take stop ++ (cleaned.drop start).drop stop) := by
        rw [h1]
    _ = cleaned := by rw [List.take_append_drop, List.take_append_drop]

/-- Membership transfer through `pyStrip`. -/
theorem mem_pyStrip {ch : Char} {cs : List Char} (h : ch ∈ pyStrip cs) : ch ∈ cs :=
  (pyStrip_mid cs).subset h

/-- Characters of a split line come from the input or the accumulator. -/
theorem mem_pySplitlinesGo :
    ∀ (cs acc : List Char), ∀ l ∈ pySplitlinesGo cs acc, ∀ ch ∈ l, ch ∈ cs ∨ ch ∈ acc := by
  intro cs acc
  induction cs, acc using pySplitlinesGo.induct with
  | case1 acc =>
      intro l hl ch hch
      simp only [pySplitlinesGo, List.mem_singleton] at hl
      subst hl
      right
      simpa using hch
  | case2 rest acc ih =>
      intro l hl ch hch
      rw [pySplitlinesGo] at hl
      rcases List.mem_cons.mp hl with hl | hl
      · subst hl
        right
        simpa using hch
      · split at hl
        · simp at hl
        · rcases ih l hl ch hch with h | h
          · left; simp [h]
          · simp at h
  | case3 c rest acc hcr hbrk ih =>
      intro l hl ch hch
      rw [pySplitlinesGo] at hl <;> try exact hcr
      rw [if_pos hbrk] at hl
      rcases List.mem_cons.mp hl with hl | hl
      · subst hl
        right
        simpa using hch
      · split at hl
        · simp at hl
        · rcases ih l hl ch hch with h | h
          · left; simp [h]
          · simp at h
  | case4 c rest acc hcr hbrk ih =>
      intro l hl ch hch
      rw [pySplitlinesGo] at hl <;> try exact hcr
      rw [if_neg (by simp [hbrk])] at hl
      rcases ih l hl ch hch with h | h
      · left; simp [h]
      · rcases List.mem_cons.mp h with h | h
        · left; simp [h]
        · right; exact h

/-- Characters of a newline join come from the lines or are newlines. -/
theorem mem_joinNewline {ch : Char} :
    ∀ {ls : List (List Char)}, ch ∈ joinNewline ls → (∃ l ∈ ls, ch ∈ l) ∨ ch = '\n'
  | [], h => by simp [joinNewline] at h
  | [l], h => Or.inl ⟨l, by simp, by simpa [joinNewline] using h⟩
  | l :: l2 :: ls, h => by
      rw [joinNewline] at h <;> try exact fun hh => List.noConfusion hh
      rcases List.mem_append.mp h with h | h
      · exact Or.inl ⟨l, by simp, h⟩
      · rcases List.mem_cons.mp h with h | h
        · exact Or.inr h
        · rcases mem_joinNewline h with ⟨l3, hl3, hc⟩ | h
          · exact Or.inl ⟨l3, by simp [hl3], hc⟩
          · exact Or.inr h

/-- Characters of the fence-stripped text come from the input text, apart
from the newlines reinserted by the line join. -/
theorem mem_strip_code_fences {ch : Char} {s : String}
    (h : ch ∈ (strip_code_fences s).data) : ch ∈ s.data ∨ ch = '\n' := by
  have L1 : ∀ (cs : List Char), ch ∈ joinNewline ((pySplitlines cs).drop 1) →
      ch ∈ cs ∨ ch = '\n' := by
    intro cs hj
    rcases mem_joinNewline hj with ⟨l, hl, hc⟩ | hnl
    · have hl2 := List.drop_subset _ _ hl
      by_cases hemp : cs.isEmpty
      · rw [pySplitlines, if_pos hemp] at hl2
        simp at hl2
      · rw [pySplitlines, if_neg hemp] at hl2
        rcases mem_pySplitlinesGo cs [] l hl2 ch hc with hin | hin
        · exact Or.inl hin
        · simp at hin
    · exact Or.inr hnl
  simp only [strip_code_fences] at h
  have h1 := mem_pyStrip h
  set c0 := pyStrip s.data with hc0
  set c1 := if fenceMarker.isPrefixOf c0 = true then
      (if 1 < (pySplitlines c0).length then joinNewline ((pySplitlines c0).drop 1) else [])
    else c0 with hc1
  have h2 : ch ∈ c1 := by
    split at h1
    · exact List.take_subset _ _ h1
    · exact h1
  have h3 : ch ∈ c0 ∨ ch = '\n' := by
    rw [hc1] at h2
    split at h2
    · split at h2
      · exact L1 c0 h2
      · simp at h2
    · exact Or.inl h2
  rcases h3 with h3 | h3
  · exact Or.inl (mem_pyStrip (hc0 ▸ h3))
  · exact Or.inr h3

/-- Dropping leading whitespace commutes into an already left-stripped
right-strip. -/
theorem dropWhile_rdropWhile_left_stripped (p : Char → Bool) (l : List Char)
    (hl : l.dropWhile p = l) :
    (List.rdropWhile p l).dropWhile p = List.rdropWhile p l := by
  obtain ⟨t, ht⟩ := List.rdropWhile_prefix p l
  cases hR : List.rdropWhile p l with
  | nil => simp
  | cons a R2 =>
      rw [hR] at ht
      have hX : l = a :: (R2 ++ t) := by
        rw [← ht]
        simp
      have hpa : p a = false := by
        by_cases hp : p a
        · exfalso
          have hdw := hl
          rw [hX, List.dropWhile_cons, if_pos hp] at hdw
          have hlen := congrArg List.length hdw
          have hle := (List.dropWhile_sublist (p := p) (l := R2 ++ t)).length_le
          simp at hlen hle
          omega
        · simpa using hp
      rw [List.dropWhile_cons, hpa]
      simp

/-- `pyStrip` is idempotent. -/
theorem pyStrip_idem (cs : List Char) : pyStrip (pyStrip cs) = pyStrip cs := by
  unfold pyStrip
  rw [dropWhile_rdropWhile_left_stripped pyIsSpace (cs.dropWhile pyIsSpace)
        (List.dropWhile_idempotent pyIsSpace cs),
      List.rdropWhile_idempotent]

/-- `firstIdxOf` finds nothing when the character is absent. -/
theorem firstIdxOf_eq_none {a : Char} :
    ∀ {cs : List Char}, (∀ c ∈ cs, c ≠ a) → firstIdxOf a cs = none
  | [], _ => rfl
  | c :: cs, h => by
      rw [firstIdxOf, if_neg (h c (by simp)),
          firstIdxOf_eq_none (fun x hx => h x (by simp [hx]))]
      rfl

/-- `lastIdxOf` finds nothing when the character is absent. -/
theorem lastIdxOf_eq_none {a : Char} {cs : List Char}
    (h : ∀ c ∈ cs, c ≠ a) : lastIdxOf a cs = none := by
  rw [lastIdxOf, firstIdxOf_eq_none (fun x hx => h x (List.mem_reverse.mp hx))]
  rfl

/-- With no bracket anywhere, the slicing of `extract_json_blob` keeps the
whole fence-stripped text. -/
theorem extract_json_blob_of_no_idx (s : String)
    (h1 : firstIdxOf '{' (strip_code_fences s).data = none)
    (h2 : firstIdxOf '[' (strip_code_fences s).data = none)
    (h3 : lastIdxOf '}' (strip_code_fences s).data = none)
    (h4 : lastIdxOf ']' (strip_code_fences s).data = none) :
    extract_json_blob s = strip_code_fences s := by
  simp only [extract_json_blob, h1, h2, List.drop_zero, h3, h4, List.take_length]
  obtain ⟨l, hl⟩ : ∃ l, strip_code_fences s = String.mk (pyStrip l) := ⟨_, rfl⟩
  rw [hl]
  show String.mk (pyStrip (pyStrip l)) = String.mk (pyStrip l)
  rw [pyStrip_idem]

/-! ### Claim C9 -/

/-- Claim C9 (algebraic): for every input string, `extract_json_blob`
returns a contiguous substring of the fence-stripped input: it only trims
a prefix and a suffix (including surrounding whitespace) and never
inserts, reorders, or fabricates characters. -/
theorem extract_json_blob_substring (text : String) :
    (extract_json_blob text).data <:+: (strip_code_fences text).data := by
  simp only [extract_json_blob]
  exact pyStrip_take_drop_mid (strip_code_fences text).data _ _

/-! ### Claim C2 -/

/-- Counterexample to claim C2 as stated: the input `42` contains none of
the four bracket characters, yet `load_json_from_response` succeeds and
returns the number 42 instead of failing with a parse error (Python
`json.loads` accepts a bare scalar document). -/
theorem bare_scalar_parses :
    load_json_from_response "42" = some (Json.num "42") ∧ bracketFree "42" :=
  ⟨by set_option maxHeartbeats 2000000 in rfl, by decide⟩

/-- Claim C2 (amended): for every input string without any of the four
bracket characters, the extraction performs no slicing at all — the blob
is exactly the fence-stripped input — and `load_json_from_response`
behaves exactly as `json.loads` on that text: it fails with a parse error
unless the text happens to be a complete bare JSON document (such as a
number or literal), in which case that value is returned. -/
theorem bracket_free_parse (s : String) (h : bracketFree s) :
    extract_json_blob s = strip_code_fences s ∧
    load_json_from_response s = json_loads (strip_code_fences s) := by
  have hcl : ∀ c ∈ (strip_code_fences s).data, c ≠ '{' ∧ c ≠ '[' ∧ c ≠ '}' ∧ c ≠ ']' := by
    intro c hc
    rcases mem_strip_code_fences hc with hmem | hnl
    · exact h c hmem
    · subst hnl
      exact ⟨by decide, by decide, by decide, by decide⟩
  have heq := extract_json_blob_of_no_idx s
    (firstIdxOf_eq_none (fun c hc => (hcl c hc).1))
    (firstIdxOf_eq_none (fun c hc => (hcl c hc).2.1))
    (lastIdxOf_eq_none (fun c hc => (hcl c hc).2.2.1))
    (lastIdxOf_eq_none (fun c hc => (hcl c hc).2.2.2))
  refine ⟨heq, ?_⟩
  show json_loads (extract_json_blob s) = json_loads (strip_code_fences s)
  rw [heq]

/-- Witness for the amended claim C2 at the concrete bracket-free input
`hello` (on which parsing indeed fails). -/
theorem bracket_free_parse_witness :
    extract_json_blob "hello" = strip_code_fences "hello" ∧
    load_json_from_response "hello" = json_loads (strip_code_fences "hello") :=
  bracket_free_parse "hello" (by decide)

/-! ### Claim C3 -/

/-- Counterexample to claim C3 as stated: a failure of the tech-stack
step does not yield an empty dependency list — it yields the hard-coded
default library list pandas, numpy, matplotlib, scikit-learn. -/
theorem tech_stack_failure_not_empty :
    (determine_tech_stack none).2 =
      Json.arr [.str "pandas", .str "numpy", .str "matplotlib", .str "scikit-learn"]
  ∧ (determine_tech_stack none).2 ≠ Json.arr [] := by
  refine ⟨rfl, fun h => ?_⟩
  simp [determine_tech_stack, tech_stack_failure_default] at h

/-- Claim C3 (amended): a model-call failure in classification degrades to
thesis type OTHER with empty method and summary; a failure in task
decomposition degrades to the empty task list; a failure in the
tech-stack step degrades to the default stack Python, Pandas, NumPy with
the default (non-empty) library list pandas, numpy, matplotlib,
scikit-learn. -/
theorem analyzer_failure_defaults (taskIds : Nat → String) :
    analyze_thesis_type none = (ThesisType.other, Json.str "", Json.str "")
  ∧ generate_code_tasks none taskIds = []
  ∧ determine_tech_stack none =
      (Json.arr [.str "Python", .str "Pandas", .str "NumPy"],
       Json.arr [.str "pandas", .str "numpy", .str "matplotlib", .str "scikit-learn"])
  ∧ (determine_tech_stack none).2 ≠ Json.arr [] := by
  refine ⟨rfl, rfl, rfl, fun h => ?_⟩
  simp [determine_tech_stack, tech_stack_failure_default] at h

/-! ### Claim C7 -/

/-- Claim C7: when every tier of the ingestion fallback chain yields no
content (returns `None` or an empty text), `ParserAgent.run` returns the
empty document — a `ParsedContent` whose `raw_markdown` is empty and all
other fields hold their defaults — instead of raising. -/
theorem ingestion_exhaustion_empty (o : MineruOracles)
    (h1 : truthyOptStr o.submitUrlTask = false)
    (h2 : truthyOptStr o.uploadAndParse = false)
    (h3 : truthyOptStr o.localPdfParse = false) :
    parser_run o = { raw_markdown := "" } := by
  have hconv : truthyOptStr (convert_pdf_to_markdown o) = false := by
    unfold convert_pdf_to_markdown
    split_ifs with hurl hex hup
    · exact h1
    · rfl
    · exact h2
    · exact h3
  simp [parser_run, hconv]

/-- Witness for claim C7: the concrete oracles in which the remote
submission is skipped, the upload yields an empty text, and the local
extraction fails. -/
theorem ingestion_exhaustion_empty_witness :
    parser_run mineruW = { raw_markdown := "" } :=
  ingestion_exhaustion_empty mineruW rfl rfl rfl

/-! ### Claim C10 -/

/-- A lookup hit in the result map is a result from the list with the
matching task id. -/
theorem result_map_mem {results : List ValidationResult} {tid : String}
    {r : ValidationResult} (h : result_map results tid = some r) :
    r ∈ results ∧ r.task_id = tid := by
  unfold result_map at h
  refine ⟨List.mem_reverse.mp (List.mem_of_find?_eq_some h), ?_⟩
  have := List.find?_some h
  simpa using this

/-- Claim C10 (frame): applying validation fixes returns a list of the
same length and order as the input; every artifact keeps its task id,
file name, description, and declared dependencies; only the source text
may change, and then only to the `fixed_code` carried by a matching
validation result. -/
theorem apply_fixes_frame (codes : List GeneratedCode) (results : List ValidationResult) :
    (apply_fixes codes results).length = codes.length
  ∧ ∀ (i : Nat) (c : GeneratedCode), codes[i]? = some c →
      ∃ c2 : GeneratedCode, (apply_fixes codes results)[i]? = some c2
        ∧ c2.task_id = c.task_id
        ∧ c2.file_name = c.file_name
        ∧ c2.description = c.description
        ∧ c2.dependencies = c.dependencies
        ∧ (c2.code = c.code ∨
            ∃ r ∈ results, r.task_id = c.task_id ∧ r.fixed_code = some c2.code) := by
  constructor
  · exact List.length_map _ _
  · intro i c hc
    refine ⟨_, by rw [apply_fixes, List.getElem?_map, hc]; rfl, ?_⟩
    cases hr : result_map results c.task_id with
    | none => simp [hr]
    | some r =>
        by_cases hfix : truthyOptStr r.fixed_code
        · obtain ⟨hmem, hid⟩ := result_map_mem hr
          cases hcode : r.fixed_code with
          | none => rw [hcode] at hfix; simp [truthyOptStr] at hfix
          | some fc =>
              simp only [hr, hfix, if_true]
              refine ⟨trivial, trivial, trivial, trivial, Or.inr ⟨r, hmem, hid, ?_⟩⟩
              rw [hcode]
              rfl
        · simp [hr, hfix]

/-- Witness for claim C10 at a concrete artifact and a matching result
carrying the replacement text `new`. -/
theorem apply_fixes_frame_witness :
    ∃ c2 : GeneratedCode, (apply_fixes codesW resultsW)[0]? = some c2
      ∧ c2.task_id = "t1"
      ∧ c2.file_name = "a.py"
      ∧ c2.description = "demo"
      ∧ c2.dependencies = ["numpy"]
      ∧ (c2.code = "old" ∨
          ∃ r ∈ resultsW, r.task_id = "t1" ∧ r.fixed_code = some c2.code) :=
  (apply_fixes_frame codesW resultsW).2 0
    { task_id := "t1", file_name := "a.py", code := "old", description := "demo",
      dependencies := ["numpy"] } rfl

/-! ### Claim C4 -/

/-- Claim C4: for every combination of per-artifact dependency lists and
analyzer-recommended libraries, the final requirements list is sorted
ascending (in the lexicographic string order), has no duplicates, and
contains exactly the union of the artifact dependencies and the
libraries. -/
theorem requirements_dedup_sorted (codes : List GeneratedCode) (libraries : List String) :
    (project_requirements codes libraries).Sorted (fun a b : String => a ≤ b)
  ∧ (project_requirements codes libraries).Nodup
  ∧ ∀ s : String, s ∈ project_requirements codes libraries ↔
      ((∃ c ∈ codes, s ∈ c.dependencies) ∨ s ∈ libraries) := by
  refine ⟨List.sorted_insertionSort _ _, ?_, ?_⟩
  · exact ((List.perm_insertionSort _ _).nodup_iff).mpr (List.nodup_dedup _)
  · intro s
    rw [project_requirements, List.mem_insertionSort, List.mem_dedup, List.mem_append,
        List.mem_flatten]
    constructor
    · rintro (⟨l, hl, hs⟩ | hs)
      · obtain ⟨c, hc, rfl⟩ := List.mem_map.mp hl
        exact Or.inl ⟨c, hc, hs⟩
      · exact Or.inr hs
    · rintro (⟨c, hc, hs⟩ | hs)
      · exact Or.inl ⟨c.dependencies, List.mem_map.mpr ⟨c, hc, rfl⟩, hs⟩
      · exact Or.inr hs

/-! ### Claim C5 -/

/-- Inserting a task into a list keeps the filtered view of any priority
class: the inserted element goes in front of its own class and does not
disturb the others. -/
theorem filter_orderedInsert_priority (p : Int) (a : CodeTask) :
    ∀ l : List CodeTask,
      (List.orderedInsert taskPriorityLe a l).filter (fun t => t.priority = p)
        = if a.priority = p
          then a :: l.filter (fun t => t.priority = p)
          else l.filter (fun t => t.priority = p)
  | [] => by
      by_cases ha : a.priority = p <;>
        simp [List.orderedInsert, List.filter_cons, ha]
  | b :: l => by
      by_cases hab : taskPriorityLe a b
      · rw [List.orderedInsert, if_pos hab]
        by_cases ha : a.priority = p <;>
          simp [List.filter_cons, ha]
      · rw [List.orderedInsert, if_neg hab, List.filter_cons,
            filter_orderedInsert_priority p a l]
        by_cases hb : b.priority = p
        · have ha : ¬a.priority = p := by
            intro ha2
            apply hab
            show a.priority ≤ b.priority
            rw [ha2, hb]
          simp [ha, hb, List.filter_cons]
        · by_cases ha : a.priority = p <;> simp [ha, hb, List.filter_cons]

/-- The stable sort of the coder keeps the original relative order inside
every priority class. -/
theorem filter_sort_tasks_by_priority (p : Int) (tasks : List CodeTask) :
    (sort_tasks_by_priority tasks).filter (fun t => t.priority = p)
      = tasks.filter (fun t => t.priority = p) := by
  induction tasks with
  | nil => rfl
  | cons a l ih =>
      simp only [sort_tasks_by_priority, List.insertionSort]
      rw [filter_orderedInsert_priority]
      simp only [sort_tasks_by_priority] at ih
      rw [ih, List.filter_cons]
      by_cases ha : a.priority = p <;> simp [ha]

/-- Claim C5: the artifacts of one synthesis run are the per-task
artifacts in ascending priority order with ties kept in original task
order (the processed task sequence is a permutation of the input, sorted
by priority, with every priority class in original order), and the
integration (main) artifact, when one is produced, is appended last. -/
theorem coder_output_ordering (gen : CodeTask → Option GeneratedCode)
    (genMain : List GeneratedCode → Option GeneratedCode)
    (tasks : List CodeTask) :
    (sort_tasks_by_priority tasks).Perm tasks
  ∧ (sort_tasks_by_priority tasks).Sorted taskPriorityLe
  ∧ (∀ p : Int, (sort_tasks_by_priority tasks).filter (fun t => t.priority = p)
        = tasks.filter (fun t => t.priority = p))
  ∧ coder_run gen genMain tasks
      = coder_artifacts gen tasks
        ++ (if (coder_artifacts gen tasks).isEmpty then none
            else genMain (coder_artifacts gen tasks)).toList := by
  refine ⟨List.perm_insertionSort _ _, List.sorted_insertionSort _ _,
          fun p => filter_sort_tasks_by_priority p tasks, ?_⟩
  unfold coder_run
  cases hm : (if (coder_artifacts gen tasks).isEmpty then none
              else genMain (coder_artifacts gen tasks)) with
  | none => simp [hm]
  | some m => simp [hm]

/-! ### Claim C6 -/

/-- The retry loop makes at most `remaining` attempts. -/
theorem chat_aux_attempts_le {ε ρ : Type} (call : Nat → Except ε ρ) (mr : Nat) :
    ∀ remaining attempt, (chat_aux call mr remaining attempt).attempts ≤ remaining := by
  intro remaining
  induction remaining with
  | zero => intro attempt; simp [chat_aux]
  | succ n ih =>
      intro attempt
      rw [chat_aux]
      split
      · simp
      · split_ifs with h
        · have := ih (attempt + 1)
          simp only []
          simpa using Nat.succ_le_succ this
        · simp

/-- The retry loop, entered with budget left, makes at least one attempt. -/
theorem chat_aux_attempts_pos {ε ρ : Type} (call : Nat → Except ε ρ) (mr : Nat)
    (n attempt : Nat) : 1 ≤ (chat_aux call mr (n + 1) attempt).attempts := by
  rw [chat_aux]
  split
  · simp
  · split_ifs with h <;> simp

/-- The backoff sleeps are exactly two to the successive attempt indices. -/
theorem chat_aux_sleeps {ε ρ : Type} (call : Nat → Except ε ρ) (mr : Nat) :
    ∀ remaining attempt, remaining + attempt = mr →
      (chat_aux call mr remaining attempt).sleeps
        = (List.range' attempt ((chat_aux call mr remaining attempt).attempts - 1)).map
            (fun i => 2 ^ i) := by
  intro remaining
  induction remaining with
  | zero => intro attempt _; simp [chat_aux]
  | succ n ih =>
      intro attempt hinv
      rw [chat_aux]
      split
      · simp
      · split_ifs with h
        · obtain ⟨n2, rfl⟩ : ∃ n2, n = n2 + 1 := ⟨n - 1, by omega⟩
          have hs := ih (attempt + 1) (by omega)
          obtain ⟨m, hm⟩ : ∃ m, (chat_aux call mr (n2 + 1) (attempt + 1)).attempts = m + 1 :=
            ⟨(chat_aux call mr (n2 + 1) (attempt + 1)).attempts - 1, by
              have := chat_aux_attempts_pos call mr n2 (attempt + 1)
              omega⟩
          rw [hm] at hs
          simp only []
          rw [hm]
          simp only [Nat.add_sub_cancel] at hs ⊢
          rw [hs, List.range'_succ]
          rfl
        · simp

/-- A first successful attempt returns its response immediately. -/
theorem chat_aux_success {ε ρ : Type} (call : Nat → Except ε ρ) (mr : Nat)
    (k : Nat) (r : ρ) (hk : k < mr) (hok : call k = .ok r)
    (hfail : ∀ i, i < k → ∃ e, call i = .error e) :
    ∀ remaining attempt, remaining + attempt = mr → attempt ≤ k →
      (chat_aux call mr remaining attempt).outcome = ChatOutcome.success r ∧
      (chat_aux call mr remaining attempt).attempts = k + 1 - attempt := by
  intro remaining
  induction remaining with
  | zero => intro attempt hinv hle; exact absurd hk (by omega)
  | succ n ih =>
      intro attempt hinv hle
      rw [chat_aux]
      by_cases hak : attempt = k
      · subst hak
        rw [hok]
        dsimp only
        exact ⟨rfl, by omega⟩
      · have hlt : attempt < k := by omega
        obtain ⟨e, he⟩ := hfail attempt hlt
        rw [he]
        dsimp only
        rw [if_pos (by omega : attempt < mr - 1)]
        have hsub := ih (attempt + 1) (by omega) (by omega)
        simp only []
        exact ⟨hsub.1, by rw [hsub.2]; omega⟩

/-- When every attempt fails, the loop raises the last error after using
the whole budget. -/
theorem chat_aux_exhaust {ε ρ : Type} (call : Nat → Except ε ρ) (mr : Nat)
    (hfail : ∀ i, i < mr → ∃ e, call i = .error e) :
    ∀ remaining attempt, remaining + attempt = mr → 1 ≤ remaining →
      ∃ e, call (mr - 1) = .error e ∧
        (chat_aux call mr remaining attempt).outcome = ChatOutcome.raised e ∧
        (chat_aux call mr remaining attempt).attempts = remaining := by
  intro remaining
  induction remaining with
  | zero => intro attempt _ hpos; omega
  | succ n ih =>
      intro attempt hinv _
      obtain ⟨e, he⟩ := hfail attempt (by omega)
      rw [chat_aux, he]
      dsimp only
      by_cases hlast : attempt < mr - 1
      · rw [if_pos hlast]
        obtain ⟨e2, he2, hout, hatt⟩ := ih (attempt + 1) (by omega) (by omega)
        refine ⟨e2, he2, ?_, ?_⟩
        · simpa using hout
        · simp only []
          rw [hatt]
      · rw [if_neg hlast]
        have hattmr : attempt = mr - 1 := by omega
        refine ⟨e, by rw [← hattmr]; exact he, rfl, by dsimp only; omega⟩

/-- Claim C6: `LLM.chat` makes at most `max_retries` attempts; between
consecutive attempts it sleeps two to the attempt index seconds (attempt
counted from zero); a first successful attempt at index `k` returns its
response immediately after `k + 1` attempts; and if every attempt fails,
the loop makes exactly `max_retries` attempts and re-raises the error of
the last one. -/
theorem llm_chat_retry {ε ρ : Type} (call : Nat → Except ε ρ) (maxRetries : Nat)
    (hpos : 0 < maxRetries) :
    (chat call maxRetries).attempts ≤ maxRetries
  ∧ (chat call maxRetries).sleeps
      = (List.range ((chat call maxRetries).attempts - 1)).map (fun i => 2 ^ i)
  ∧ (∀ (k : Nat) (r : ρ), k < maxRetries → call k = .ok r →
       (∀ i, i < k → ∃ e, call i = .error e) →
       (chat call maxRetries).outcome = ChatOutcome.success r ∧
       (chat call maxRetries).attempts = k + 1)
  ∧ ((∀ i, i < maxRetries → ∃ e, call i = .error e) →
       ∃ e, call (maxRetries - 1) = .error e ∧
         (chat call maxRetries).outcome = ChatOutcome.raised e ∧
         (chat call maxRetries).attempts = maxRetries) := by
  refine ⟨chat_aux_attempts_le call maxRetries maxRetries 0, ?_, ?_, ?_⟩
  · have := chat_aux_sleeps call maxRetries maxRetries 0 (by omega)
    rw [List.range_eq_range']
    exact this
  · intro k r hk hok hfail
    obtain ⟨h1, h2⟩ :=
      chat_aux_success call maxRetries k r hk hok hfail maxRetries 0 (by omega) (by omega)
    refine ⟨h1, ?_⟩
    show (chat_aux call maxRetries maxRetries 0).attempts = k + 1
    omega
  · intro hfail
    exact chat_aux_exhaust call maxRetries hfail maxRetries 0 (by omega) (by omega)

/-- Witness for claim C6: a call oracle failing at attempt 0 with one
backoff sleep of one second, then succeeding at attempt 1, under the
default retry budget 3. -/
theorem llm_chat_retry_witness :
    (chat callW 3).outcome = ChatOutcome.success "done" ∧ (chat callW 3).attempts = 2 :=
  (llm_chat_retry callW 3 (by omega)).2.2.1 1 "done" (by omega) rfl
    (fun i hi => by
      interval_cases i
      exact ⟨"boom", rfl⟩)

/-! ### Claim C1 -/

/-- Loop bookkeeping for the validation loop: at most `remaining` fix
attempts and successes from any loop state, and consuming the whole
budget in successful repairs forces the terminal exhaustion result. -/
theorem validate_aux_spec (env : PyChecks) (llm : Nat → Option String)
    (orig : GeneratedCode) (mr : Nat) :
    ∀ remaining current fixIdx,
      (validate_aux env llm orig mr remaining current fixIdx).fixAttempts ≤ remaining
    ∧ (validate_aux env llm orig mr remaining current fixIdx).fixSuccesses ≤ remaining
    ∧ ((validate_aux env llm orig mr remaining current fixIdx).fixSuccesses = remaining →
        (validate_aux env llm orig mr remaining current fixIdx).result
          = retry_exhausted_result orig mr) := by
  intro remaining
  induction remaining with
  | zero =>
      intro current fixIdx
      exact ⟨Nat.le_refl 0, Nat.le_refl 0, fun _ => rfl⟩
  | succ n ih =>
      intro current fixIdx
      rw [validate_aux]
      cases hs : check_syn env current with
      | some msg =>
          cases hf : fix_code env (llm fixIdx) with
          | some fixed =>
              obtain ⟨h1, h2, h3⟩ := ih fixed (fixIdx + 1)
              dsimp only
              refine ⟨Nat.succ_le_succ h1, Nat.succ_le_succ h2, fun hEq => ?_⟩
              exact h3 (Nat.succ_injective hEq)
          | none =>
              dsimp only
              exact ⟨by omega, by omega, fun hEq => by omega⟩
      | none =>
          have hp : env.astParse current = none := by
            have hs2 := hs
            unfold check_syn at hs2
            exact Option.map_eq_none'.mp hs2
          have himp : check_imports env current = (true, none) := by
            unfold check_imports
            rw [hp]
          rw [himp]
          dsimp only
          exact ⟨by omega, by omega, fun hEq => by omega⟩

/-- Claim C1: the validator performs at most `max_retries` fix attempts
per artifact (each successful repair consuming one retry unit), and when
the retry budget is exhausted by successful repairs without reaching a
valid outcome, the returned result has `is_valid` false and an error
message stating that the maximum retry count was exceeded. -/
theorem validator_retry_budget (env : PyChecks) (llm : Nat → Option String)
    (code : GeneratedCode) (maxRetries : Nat) :
    (validate_single_code env llm code maxRetries).fixAttempts ≤ maxRetries
  ∧ (validate_single_code env llm code maxRetries).fixSuccesses ≤ maxRetries
  ∧ ((validate_single_code env llm code maxRetries).fixSuccesses = maxRetries →
      (validate_single_code env llm code maxRetries).result.is_valid = false
    ∧ (validate_single_code env llm code maxRetries).result.error_message
        = some ("超过最大重试次数(" ++ toString maxRetries ++ ")")) := by
  obtain ⟨h1, h2, h3⟩ := validate_aux_spec env llm code maxRetries maxRetries code.code 0
  refine ⟨h1, h2, fun hEq => ?_⟩
  have hres := h3 hEq
  show (validate_aux env llm code maxRetries maxRetries code.code 0).result.is_valid = false
    ∧ (validate_aux env llm code maxRetries maxRetries code.code 0).result.error_message
        = some ("超过最大重试次数(" ++ toString maxRetries ++ ")")
  rw [hres]
  exact ⟨rfl, rfl⟩

/-- Witness for claim C1: with budget 1 and an artifact whose source does
not parse, one successful repair consumes the whole budget and the loop
terminates exhausted. -/
theorem validator_retry_budget_witness :
    (validate_single_code envW llmW codeW 1).result.is_valid = false
  ∧ (validate_single_code envW llmW codeW 1).result.error_message
      = some ("超过最大重试次数(" ++ toString 1 ++ ")") :=
  (validator_retry_budget envW llmW codeW 1).2.2 (by rfl)

/-! ### Claim C8 -/

/-- Claim C8: an artifact whose source has a syntax error, given one
repair round-trip whose reply contains reparsable code, ends valid with
`fixed_code` populated by the repaired text, which differs from the
original source (budget permitting a second loop pass, as the configured
default 5 does). -/
theorem single_error_repair (env : PyChecks) (llm : Nat → Option String)
    (code : GeneratedCode) (maxRetries : Nat) (hmr : 2 ≤ maxRetries)
    (e : SynError) (resp fixed : String)
    (h1 : env.astParse code.code = some e)
    (h2 : llm 0 = some resp)
    (h3 : extract_python_block resp = some fixed)
    (h4 : env.astParse fixed = none) :
    (validate_single_code env llm code maxRetries).result.is_valid = true
  ∧ (validate_single_code env llm code maxRetries).result.fixed_code = some fixed
  ∧ fixed ≠ code.code := by
  have hne : fixed ≠ code.code := by
    intro heq
    rw [heq, h1] at h4
    cases h4
  obtain ⟨k, hk⟩ : ∃ k, maxRetries = k + 1 + 1 := ⟨maxRetries - 2, by omega⟩
  subst hk
  have hsyn1 : check_syn env code.code = some (format_syn_error e) := by
    unfold check_syn
    rw [h1]
    rfl
  have hfix : fix_code env (llm 0) = some fixed := by
    unfold fix_code
    rw [h2]
    dsimp only
    rw [h3]
    dsimp only
    rw [h4]
    rfl
  have hsyn2 : check_syn env fixed = none := by
    unfold check_syn
    rw [h4]
    rfl
  have himp2 : check_imports env fixed = (true, none) := by
    unfold check_imports
    rw [h4]
  refine ⟨?_, ?_, hne⟩ <;>
    simp [validate_single_code, validate_aux, hsyn1, hfix, hsyn2, himp2, hne]

/-- Witness for claim C8: the artifact `x = (` repaired to `ok` in one
round-trip under the default budget 5. -/
theorem single_error_repair_witness :
    (validate_single_code envW llmW codeW 5).result.is_valid = true
  ∧ (validate_single_code envW llmW codeW 5).result.fixed_code = some "ok"
  ∧ "ok" ≠ codeW.code :=
  single_error_repair envW llmW codeW 5 (by omega)
    ⟨1, "invalid syntax", "invalid syntax at line 1"⟩ "```python\nok```" "ok"
    rfl rfl (by rfl) rfl
